import Mathlib

/-!
Verification of the cubic Hermite spline engine of `compmath`
(`compmath/interpolation/splain.py`, class `__HermiteSpline`, exported as
`hspline`).

The Python code works with `decimal.Decimal` values (converted by
`to_decimal`) and solves the boundary-condition linear system with
`np.linalg.solve` after casting to `float32`.  The shallow embedding uses
exact rationals `ℚ` for all arithmetic and models `np.linalg.solve` as
exact Gaussian elimination: it returns the exact solution of `A·m = rhs`
when `A` is invertible and fails (`LinAlgError`) when `A` is singular.
Fallible Python operations (list indexing, `Decimal` division by zero,
the explicit `raise ValueError` for missing boundary data, the singular
solve) are modelled in the `Except Err` monad.
-/

namespace CompMath

/-- Runtime failures of `_build_spline`: Python `IndexError` from list /
array indexing, `Decimal` division by zero, the explicit `ValueError`
raised for missing `dy_nodes` / `ddy_nodes`, and `np.linalg.LinAlgError`
from `np.linalg.solve` on a singular matrix. -/
inductive Err where
  | indexError
  | divByZero
  | valueError
  | singular
  deriving DecidableEq, Repr

/-- The `bc_type` literal of `__HermiteSpline.__init__`:
`"not-a-knot" | "clamped" | "second" | "periodic"`. -/
inductive BcType where
  | notAKnot
  | clamped
  | second
  | periodic
  deriving DecidableEq, Repr

/-- One entry of `self.coeffs`: the tuple `(ai, bi, ci, di, x[i])` built in
`_build_spline`, defining `S_i(x) = a_i + b_i·(x-x_i) + c_i·(x-x_i)² + d_i·(x-x_i)³`. -/
structure SegCoeff where
  a : ℚ
  b : ℚ
  c : ℚ
  d : ℚ
  xi : ℚ
  deriving DecidableEq, Repr

/-- The state a built `__HermiteSpline` keeps and its query methods read:
the abscissas `self.xp` and the coefficient table `self.coeffs`. -/
structure Spline where
  xp : List ℚ
  coeffs : List SegCoeff
  deriving DecidableEq, Repr

instance : Inhabited SegCoeff := ⟨⟨0, 0, 0, 0, 0⟩⟩

instance {ε α} [DecidableEq ε] [DecidableEq α] : DecidableEq (Except ε α) :=
  fun a b =>
    match a, b with
    | .ok x, .ok y => decidable_of_iff (x = y) (by simp)
    | .error x, .error y => decidable_of_iff (x = y) (by simp)
    | .ok _, .error _ => isFalse (by simp)
    | .error _, .ok _ => isFalse (by simp)

/-- List access with default `0`, used where the Python index is known to
be in range. -/
def nth (xs : List ℚ) (i : ℕ) : ℚ := xs.getD i 0

/-- `np.diff(x)`: the list of consecutive differences `h_i = x_{i+1} - x_i`. -/
def diffs (xs : List ℚ) : List ℚ := List.zipWith (fun a b => a - b) xs.tail xs

/-- Python sequence indexing: a non-negative index must be `< len`, a
negative index `i` addresses `len + i`; anything else raises `IndexError`. -/
def pyIdx (len : ℕ) (i : ℤ) : Except Err ℕ :=
  if 0 ≤ i ∧ i < (len : ℤ) then .ok i.toNat
  else if -(len : ℤ) ≤ i ∧ i < 0 then .ok (i + len).toNat
  else .error .indexError

/-- Python `l[i]` on a list. -/
def pyGet {α} [Inhabited α] (l : List α) (i : ℤ) : Except Err α := do
  let k ← pyIdx l.length i
  pure (l.getD k default)

/-- Python `l[i] = v` on a list. -/
def pySet {α} (l : List α) (i : ℤ) (v : α) : Except Err (List α) := do
  let k ← pyIdx l.length i
  pure (l.set k v)

/-- Matrices are lists of rows; `A[i, j] = v` with Python index semantics. -/
def matSet (A : List (List ℚ)) (i j : ℤ) (v : ℚ) : Except Err (List (List ℚ)) := do
  let k ← pyIdx A.length i
  let row := A.getD k []
  let row2 ← pySet row j v
  pure (A.set k row2)

/-- `Decimal` division: raises on a zero divisor. -/
def sdiv (x y : ℚ) : Except Err ℚ :=
  if y = 0 then .error .divByZero else .ok (x / y)

/-- `np.zeros(n)` as a rational vector. -/
def zerosVec (n : ℕ) : List ℚ := List.replicate n 0

/-- `np.zeros((n, n))` as a list of rows. -/
def zerosMat (n : ℕ) : List (List ℚ) := List.replicate n (zerosVec n)

/-- Dot product of two rational lists. -/
def dot (a b : List ℚ) : ℚ := (List.zipWith (· * ·) a b).sum

/-- One step of exact Gaussian elimination: pick the first row with a
non-zero leading entry as the pivot row; `none` when the whole leading
column is zero (the matrix is singular). -/
def pickPivot (rows : List (List ℚ)) : Option (List ℚ × List (List ℚ)) :=
  match rows.findIdx? (fun row => row.headD 0 != 0) with
  | none => none
  | some i => some (rows.getD i [], rows.eraseIdx i)

/-- Exact Gaussian elimination with back-substitution on an augmented
system of `k` rows of length `k + 1`; `none` exactly when the matrix is
singular.  This is the exact-arithmetic model of `np.linalg.solve`. -/
def elimSolve : ℕ → List (List ℚ) → Option (List ℚ)
  | 0, _ => some []
  | k + 1, rows => do
    let (p, rest) ← pickPivot rows
    let piv := p.headD 0
    let reduced := rest.map (fun row =>
      List.zipWith (fun u v => u - row.headD 0 / piv * v) row.tail p.tail)
    let xs ← elimSolve k reduced
    let x := (p.getD (k + 1) 0 - dot (p.tail.take k) xs) / piv
    pure (x :: xs)

/-- `np.linalg.solve(A, rhs)` modelled exactly: the solution of `A·m = rhs`
when `A` is invertible, `none` (→ `LinAlgError`) when it is singular. -/
def linSolve (A : List (List ℚ)) (rhs : List ℚ) : Option (List ℚ) :=
  elimSolve A.length (List.zipWith (fun row v => row ++ [v]) A rhs)

/-- One iteration of the interior-row loop of `_build_spline`
(`for i in range(1, n - 1)`): writes `A[i, i-1]`, `A[i, i]`, `A[i, i+1]`
and `rhs[i]`. -/
def interiorStep (h y : List ℚ) (st : List (List ℚ) × List ℚ) (i : ℕ) :
    Except Err (List (List ℚ) × List ℚ) := do
  let (A, r) := st
  let hi ← pyGet h i
  let him ← pyGet h ((i : ℤ) - 1)
  let q1 ← sdiv hi (him + hi)
  let A ← matSet A i ((i : ℤ) - 1) q1
  let A ← matSet A i i 2
  let q2 ← sdiv him (him + hi)
  let A ← matSet A i ((i : ℤ) + 1) q2
  let yip ← pyGet y ((i : ℤ) + 1)
  let yi ← pyGet y i
  let yim ← pyGet y ((i : ℤ) - 1)
  let t1 ← sdiv (yip - yi) hi
  let t2 ← sdiv (yi - yim) him
  let rv ← sdiv (3 * (t1 * him + t2 * hi)) (him + hi)
  let r ← pySet r i rv
  pure (A, r)

/-- One iteration of the coefficient loop of `_build_spline`
(`for i in range(n - 1)`), producing `(ai, bi, ci, di, x[i])`. -/
def coeffStep (xp h y m : List ℚ) (i : ℕ) : Except Err SegCoeff := do
  let hi ← pyGet h i
  let ai ← pyGet y i
  let bi ← pyGet m i
  let yip ← pyGet y ((i : ℤ) + 1)
  let mip ← pyGet m ((i : ℤ) + 1)
  let c1 ← sdiv (3 * (yip - ai)) (hi ^ 2)
  let c2 ← sdiv (2 * bi + mip) hi
  let d1 ← sdiv (2 * (ai - yip)) (hi ^ 3)
  let d2 ← sdiv (bi + mip) (hi ^ 2)
  let xi ← pyGet xp i
  pure ⟨ai, bi, c1 - c2, d1 + d2, xi⟩

/-- The boundary-row dispatch of `_build_spline` (`if self.bc_type == ...`),
applied after the interior loop. -/
def boundaryRows (bc : BcType) (h yp : List ℚ) (dy ddy : Option (List ℚ))
    (A : List (List ℚ)) (r : List ℚ) : Except Err (List (List ℚ) × List ℚ) := do
  match bc with
  | .clamped => do
    let some dyl := dy | throw .valueError
    let d0 ← pyGet dyl 0
    let A ← matSet A 0 0 1
    let r ← pySet r 0 d0
    let dlast ← pyGet dyl (-1)
    let A ← matSet A (-1) (-1) 1
    let r ← pySet r (-1) dlast
    pure (A, r)
  | .second => do
    let some ddyl := ddy | throw .valueError
    let A ← matSet A 0 0 2
    let A ← matSet A 0 1 1
    let A ← matSet A (-1) (-2) 1
    let A ← matSet A (-1) (-1) 2
    let y1 ← pyGet yp 1
    let y0 ← pyGet yp 0
    let h0 ← pyGet h 0
    let t ← sdiv (6 * (y1 - y0)) h0
    let t ← sdiv t h0
    let dd0 ← pyGet ddyl 0
    let r ← pySet r 0 (t - h0 * dd0)
    let ym1 ← pyGet yp (-1)
    let ym2 ← pyGet yp (-2)
    let hm1 ← pyGet h (-1)
    let t2 ← sdiv (6 * (ym1 - ym2)) hm1
    let t2 ← sdiv t2 hm1
    let dd1 ← pyGet ddyl 1
    let r ← pySet r (-1) (t2 - hm1 * dd1)
    pure (A, r)
  | .periodic => do
    let A ← matSet A 0 0 1
    let A ← matSet A 0 (-1) (-1)
    let A ← matSet A (-1) 0 1
    let A ← matSet A (-1) (-1) (-1)
    let r ← pySet r 0 0
    let r ← pySet r (-1) 0
    pure (A, r)
  | .notAKnot => do
    let h1 ← pyGet h 1
    let h0 ← pyGet h 0
    let A ← matSet A 0 0 h1
    let A ← matSet A 0 1 (-(h0 + h1))
    let A ← matSet A 0 2 h0
    let hm1 ← pyGet h (-1)
    let hm2 ← pyGet h (-2)
    let A ← matSet A (-1) (-3) hm1
    let A ← matSet A (-1) (-2) (-(hm2 + hm1))
    let A ← matSet A (-1) (-1) hm2
    let r ← pySet r 0 0
    let r ← pySet r (-1) 0
    pure (A, r)

/-- `__HermiteSpline.__init__` / `_build_spline`: assemble the `n×n`
system, dispatch on the boundary condition, solve for the tangents `m`,
and build the per-segment coefficient table.  No validation of the inputs
is performed anywhere, exactly as in the source. -/
def hsplineBuild (xp yp : List ℚ) (bc : BcType)
    (dy ddy : Option (List ℚ)) : Except Err Spline := do
  let n := xp.length
  let h := diffs xp
  let A := zerosMat n
  let r := zerosVec n
  let (A, r) ← (List.range' 1 (n - 2)).foldlM (interiorStep h yp) (A, r)
  let (A, r) ← boundaryRows bc h yp dy ddy A r
  let m ← match linSolve A r with
    | some m => pure m
    | none => throw .singular
  let coeffs ← (List.range (n - 1)).mapM (coeffStep xp h yp m)
  pure ⟨xp, coeffs⟩

/-- `Except.isOk`: did construction succeed (no Python exception)? -/
def buildOk (e : Except Err Spline) : Bool :=
  match e with
  | .ok _ => true
  | .error _ => false

/-- `np.searchsorted(xp, v)` with the default `side='left'` on the sorted
`self.xp`: the number of elements `< v`, i.e. the first index whose element
is `≥ v`. -/
def searchsorted (xs : List ℚ) (v : ℚ) : ℕ := xs.countP (fun t => t < v)

/-- `np.clip(v, lo, hi)` on integers: `min(hi, max(lo, v))`. -/
def np_clip (v lo hi : ℤ) : ℤ := min hi (max lo v)

/-- The segment index `np.clip(np.searchsorted(self.xp, x) - 1, 0, self.n - 2)`
used by `interpolate` (and, with the bounds, by `integrate`). -/
def segIndex (xs : List ℚ) (x : ℚ) : ℕ :=
  (np_clip ((searchsorted xs x : ℤ) - 1) 0 ((xs.length : ℤ) - 2)).toNat

/-- `__HermiteSpline.interpolate` at one query point:
`S_i(x) = a_i + b_i·dx + c_i·dx² + d_i·dx³` with `dx = x - x_i` for the
clipped segment index `i`. -/
def interpolate (s : Spline) (x : ℚ) : ℚ :=
  let i := segIndex s.xp x
  let c := s.coeffs.getD i default
  let dx := x - c.xi
  c.a + c.b * dx + c.c * dx ^ 2 + c.d * dx ^ 3

/-- Formal derivative of a polynomial given as its coefficient list
`[c₀, c₁, c₂, ...]` (ascending powers), as `sp.diff` produces for each
piecewise branch. -/
def polyDeriv (l : List ℚ) : List ℚ :=
  (List.range (l.length - 1)).map (fun k => (((k + 1 : ℕ)) : ℚ) * l.getD (k + 1) 0)

/-- Horner evaluation of a coefficient list at `t`. -/
def evalPoly (l : List ℚ) (t : ℚ) : ℚ := l.foldr (fun c acc => c + t * acc) 0

/-- `__HermiteSpline.derivative` at one query point: the symbolic piecewise
expression `Σᵢ Piecewise((Sᵢ, xᵢ ≤ x ≤ xᵢ₊₁), (0, True))` is differentiated
`order` times and substituted at `x`; a branch contributes exactly when its
(closed-interval) condition holds, and the default branch contributes `0`.
The segment base points are taken from `self.xp` as in the source. -/
def derivAt (s : Spline) (x : ℚ) (order : ℕ) : ℚ :=
  ∑ i ∈ Finset.range (s.xp.length - 1),
    if nth s.xp i ≤ x ∧ x ≤ nth s.xp (i + 1) then
      let c := s.coeffs.getD i default
      evalPoly (polyDeriv^[order] [c.a, c.b, c.c, c.d]) (x - nth s.xp i)
    else 0

/-- The coefficient loop of `_build_spline` as a pure function of the
nodes and an arbitrary tangent vector `m` (the exact-arithmetic value of
whatever `np.linalg.solve` returned):
`a_i = y_i`, `b_i = m_i`, `c_i = 3(y_{i+1}-y_i)/h_i² - (2m_i+m_{i+1})/h_i`,
`d_i = 2(y_i-y_{i+1})/h_i³ + (m_i+m_{i+1})/h_i²`, base point `x_i`. -/
def buildCoeffs (xs ys m : List ℚ) : List SegCoeff :=
  (List.range (xs.length - 1)).map (fun i =>
    let h := nth xs (i + 1) - nth xs i
    ⟨nth ys i, nth m i,
     3 * (nth ys (i + 1) - nth ys i) / h ^ 2 - (2 * nth m i + nth m (i + 1)) / h,
     2 * (nth ys i - nth ys (i + 1)) / h ^ 3 + (nth m i + nth m (i + 1)) / h ^ 2,
     nth xs i⟩)

/-- A spline state with coefficient table built from tangent vector `m`. -/
def mkSpline (xs ys m : List ℚ) : Spline := ⟨xs, buildCoeffs xs ys m⟩

/-- The segment cubic `S_i(x) = a_i + b_i·(x-x_i) + c_i·(x-x_i)² + d_i·(x-x_i)³`. -/
def segEval (c : SegCoeff) (x : ℚ) : ℚ :=
  c.a + c.b * (x - c.xi) + c.c * (x - c.xi) ^ 2 + c.d * (x - c.xi) ^ 3

/-- First derivative of a segment cubic:
`S_i'(x) = b_i + 2c_i·(x-x_i) + 3d_i·(x-x_i)²` (the closed form documented
in `derivative`). -/
def segDeriv1 (c : SegCoeff) (x : ℚ) : ℚ :=
  c.b + 2 * c.c * (x - c.xi) + 3 * c.d * (x - c.xi) ^ 2

/-- Second derivative of a segment cubic: `S_i''(x) = 2c_i + 6d_i·(x-x_i)`. -/
def segDeriv2 (c : SegCoeff) (x : ℚ) : ℚ :=
  2 * c.c + 6 * c.d * (x - c.xi)

/-- The coefficient matrix `A` assembled by `_build_spline`, as a function
of the row and column index (the imperative fill written functionally):
rows `1..n-2` hold the interior relation
`A[i,i-1] = h_i/(h_{i-1}+h_i)`, `A[i,i] = 2`, `A[i,i+1] = h_{i-1}/(h_{i-1}+h_i)`,
and rows `0` and `n-1` are overwritten by the boundary-condition dispatch. -/
def buildA (bc : BcType) (xs : List ℚ) (i j : ℕ) : ℚ :=
  let n := xs.length
  let h := diffs xs
  if i = 0 then
    match bc with
    | .clamped => if j = 0 then 1 else 0
    | .second => if j = 0 then 2 else if j = 1 then 1 else 0
    | .periodic => if j = 0 then 1 else if j = n - 1 then -1 else 0
    | .notAKnot =>
        if j = 0 then nth h 1
        else if j = 1 then -(nth h 0 + nth h 1)
        else if j = 2 then nth h 0 else 0
  else if i = n - 1 then
    match bc with
    | .clamped => if j = n - 1 then 1 else 0
    | .second => if j = n - 2 then 1 else if j = n - 1 then 2 else 0
    | .periodic => if j = 0 then 1 else if j = n - 1 then -1 else 0
    | .notAKnot =>
        if j = n - 3 then nth h (n - 2)
        else if j = n - 2 then -(nth h (n - 3) + nth h (n - 2))
        else if j = n - 1 then nth h (n - 3) else 0
  else if i < n - 1 then
    if j + 1 = i then nth h i / (nth h (i - 1) + nth h i)
    else if j = i then 2
    else if j = i + 1 then nth h (i - 1) / (nth h (i - 1) + nth h i)
    else 0
  else 0

/-- The right-hand side `rhs` assembled by `_build_spline`, with the
`clamped` endpoint derivatives as the pair `dy = (dy_nodes[0], dy_nodes[-1])`
and the `second` endpoint second derivatives as `ddy = (ddy_nodes[0], ddy_nodes[1])`. -/
def buildRhs (bc : BcType) (xs ys : List ℚ) (dy ddy : ℚ × ℚ) (i : ℕ) : ℚ :=
  let n := xs.length
  let h := diffs xs
  if i = 0 then
    match bc with
    | .clamped => dy.1
    | .second => 6 * (nth ys 1 - nth ys 0) / nth h 0 / nth h 0 - nth h 0 * ddy.1
    | .periodic => 0
    | .notAKnot => 0
  else if i = n - 1 then
    match bc with
    | .clamped => dy.2
    | .second =>
        6 * (nth ys (n - 1) - nth ys (n - 2)) / nth h (n - 2) / nth h (n - 2)
          - nth h (n - 2) * ddy.2
    | .periodic => 0
    | .notAKnot => 0
  else if i < n - 1 then
    3 * ((nth ys (i + 1) - nth ys i) / nth h i * nth h (i - 1)
        + (nth ys i - nth ys (i - 1)) / nth h (i - 1) * nth h i)
      / (nth h (i - 1) + nth h i)
  else 0

/-- The segment antiderivative `∫ S_i = a_i·dx + b_i·dx²/2 + c_i·dx³/3 + d_i·dx⁴/4`
used by `integrate`. -/
def polyintC (c : SegCoeff) (dx : ℚ) : ℚ :=
  c.a * dx + c.b * dx ^ 2 / 2 + c.c * dx ^ 3 / 3 + c.d * dx ^ 4 / 4

/-- The accumulation loop of `integrate` (`for i in range(left, right + 1)`),
threading `x_left`: each segment contributes
`polyint(min(x_{i+1}, b) - x_i) - polyint(max(x_i, x_left) - x_i)`. -/
def integLoop (s : Spline) (b : ℚ) : ℕ → ℕ → ℚ → ℚ
  | _, 0, _ => 0
  | i, cnt + 1, xleft =>
    let c := s.coeffs.getD i default
    let x0 := max c.xi xleft
    let x1 := min (nth s.xp (i + 1)) b
    (polyintC c (x1 - c.xi) - polyintC c (x0 - c.xi)) + integLoop s b (i + 1) cnt x1

/-- `__HermiteSpline.integrate`: swap the bounds if needed, clip the
segment indices of both bounds, and accumulate the per-segment
antiderivative differences. -/
def integrate (s : Spline) (a b : ℚ) : ℚ :=
  let ab := if a > b then (b, a) else (a, b)
  let left := segIndex s.xp ab.1
  let right := segIndex s.xp ab.2
  integLoop s ab.2 left (right + 1 - left) ab.1

/-- The per-segment clamp `max x_i (min x_{i+1} t)` of a bound `t`. -/
def clampSeg (xs : List ℚ) (i : ℕ) (t : ℚ) : ℚ :=
  max (nth xs i) (min (nth xs (i + 1)) t)

/-- The ideal truncated antiderivative: the sum over all segments of the
antiderivative evaluated at the bound clamped into the segment.
`integrate a b` equals `antiTrunc b - antiTrunc a` for in-range bounds. -/
def antiTrunc (s : Spline) (t : ℚ) : ℚ :=
  ∑ i ∈ Finset.range (s.xp.length - 1),
    polyintC (s.coeffs.getD i default) (clampSeg s.xp i t - nth s.xp i)

end CompMath

namespace CompMath

/-! Helper lemmas about list access, the assembled coefficients, and
`np.searchsorted`. -/

theorem nth_eq_getElem (xs : List ℚ) (i : ℕ) (h : i < xs.length) : nth xs i = xs[i] := by
  simp [nth, List.getD_eq_getElem?_getD, List.getElem?_eq_getElem h]

theorem sorted_nth_lt {xs : List ℚ} (hs : xs.Sorted (· < ·)) {i j : ℕ}
    (hij : i < j) (hj : j < xs.length) : nth xs i < nth xs j := by
  rw [nth_eq_getElem xs i (lt_trans hij hj), nth_eq_getElem xs j hj]
  exact List.Sorted.rel_get_of_lt hs (by simpa using hij)

theorem sorted_nth_le {xs : List ℚ} (hs : xs.Sorted (· < ·)) {i j : ℕ}
    (hij : i ≤ j) (hj : j < xs.length) : nth xs i ≤ nth xs j := by
  rcases Nat.lt_or_ge i j with h | h
  · exact le_of_lt (sorted_nth_lt hs h hj)
  · have : i = j := le_antisymm hij h
    simp [this]

theorem buildCoeffs_length (xs ys m : List ℚ) :
    (buildCoeffs xs ys m).length = xs.length - 1 := by
  simp [buildCoeffs]

theorem buildCoeffs_getD (xs ys m : List ℚ) {i : ℕ} (hi : i < xs.length - 1) :
    (buildCoeffs xs ys m).getD i default =
      ⟨nth ys i, nth m i,
       3 * (nth ys (i + 1) - nth ys i) / (nth xs (i + 1) - nth xs i) ^ 2
         - (2 * nth m i + nth m (i + 1)) / (nth xs (i + 1) - nth xs i),
       2 * (nth ys i - nth ys (i + 1)) / (nth xs (i + 1) - nth xs i) ^ 3
         + (nth m i + nth m (i + 1)) / (nth xs (i + 1) - nth xs i) ^ 2,
       nth xs i⟩ := by
  have hlen : i < (buildCoeffs xs ys m).length := by
    simpa [buildCoeffs_length] using hi
  rw [List.getD_eq_getElem _ _ hlen]
  simp [buildCoeffs]

theorem cubic_eval_right (y1 y2 b m2 h : ℚ) (hh : h ≠ 0) :
    y1 + b * h + (3 * (y2 - y1) / h ^ 2 - (2 * b + m2) / h) * h ^ 2
      + (2 * (y1 - y2) / h ^ 3 + (b + m2) / h ^ 2) * h ^ 3 = y2 := by
  field_simp
  ring

theorem cubic_deriv_right (y1 y2 b m2 h : ℚ) (hh : h ≠ 0) :
    b + 2 * (3 * (y2 - y1) / h ^ 2 - (2 * b + m2) / h) * h
      + 3 * (2 * (y1 - y2) / h ^ 3 + (b + m2) / h ^ 2) * h ^ 2 = m2 := by
  field_simp
  ring

/-- The four endpoint identities of one built segment: the segment cubic
interpolates both endpoint ordinates and its first derivative matches the
tangent values at both endpoints, for any tangent vector `m`. -/
theorem seg_endpoint_identities {xs : List ℚ} (ys m : List ℚ)
    (hs : xs.Sorted (· < ·)) {i : ℕ} (hi : i < xs.length - 1) :
    segEval ((buildCoeffs xs ys m).getD i default) (nth xs i) = nth ys i
    ∧ segEval ((buildCoeffs xs ys m).getD i default) (nth xs (i + 1)) = nth ys (i + 1)
    ∧ segDeriv1 ((buildCoeffs xs ys m).getD i default) (nth xs i) = nth m i
    ∧ segDeriv1 ((buildCoeffs xs ys m).getD i default) (nth xs (i + 1)) = nth m (i + 1) := by
  have hi1 : i + 1 < xs.length := by omega
  have hne : nth xs (i + 1) - nth xs i ≠ 0 :=
    sub_ne_zero.mpr (ne_of_gt (sorted_nth_lt hs (Nat.lt_succ_self i) hi1))
  rw [buildCoeffs_getD xs ys m hi]
  refine ⟨by simp [segEval], ?_, by simp [segDeriv1], ?_⟩
  · have := cubic_eval_right (nth ys i) (nth ys (i + 1)) (nth m i) (nth m (i + 1))
      (nth xs (i + 1) - nth xs i) hne
    simpa [segEval] using this
  · have := cubic_deriv_right (nth ys i) (nth ys (i + 1)) (nth m i) (nth m (i + 1))
      (nth xs (i + 1) - nth xs i) hne
    simpa [segDeriv1] using this

theorem ss_le_length (xs : List ℚ) (v : ℚ) : searchsorted xs v ≤ xs.length :=
  List.countP_le_length _

theorem nth_lt_of_lt_ss {xs : List ℚ} (hs : xs.Sorted (· < ·)) {v : ℚ} {k : ℕ}
    (hk : k < searchsorted xs v) : nth xs k < v := by
  induction xs generalizing k with
  | nil => simp [searchsorted] at hk
  | cons x t ih =>
    rw [List.sorted_cons] at hs
    rw [searchsorted, List.countP_cons] at hk
    cases k with
    | zero =>
      by_cases hx : x < v
      · simpa [nth] using hx
      · have hpos : 0 < t.countP (fun y => decide (y < v)) := by
          simpa [hx] using hk
        obtain ⟨y, hy, hyv⟩ := List.countP_pos_iff.mp hpos
        have : x < y := hs.1 y hy
        simp only [decide_eq_true_eq] at hyv
        simpa [nth] using lt_trans this hyv
    | succ k =>
      have hk2 : k < searchsorted t v := by
        rw [searchsorted]
        by_cases hx : x < v <;> simp [hx] at hk <;> omega
      simpa [nth] using ih hs.2 hk2

theorem le_nth_of_ss_le {xs : List ℚ} (hs : xs.Sorted (· < ·)) {v : ℚ} {k : ℕ}
    (hk : searchsorted xs v ≤ k) (hklen : k < xs.length) : v ≤ nth xs k := by
  induction xs generalizing k with
  | nil => simp at hklen
  | cons x t ih =>
    rw [List.sorted_cons] at hs
    rw [searchsorted, List.countP_cons] at hk
    cases k with
    | zero =>
      have hx : ¬ x < v := by
        intro hlt
        simp [hlt] at hk
      simpa [nth] using le_of_not_lt hx
    | succ k =>
      have hklen2 : k < t.length := by simpa using hklen
      by_cases hx : x < v
      · have : searchsorted t v ≤ k := by
          rw [searchsorted]
          simp [hx] at hk
          omega
        simpa [nth] using ih hs.2 this hklen2
      · have hvx : v ≤ x := le_of_not_lt hx
        have hxk : x < nth t k := by
          rw [nth_eq_getElem t k hklen2]
          exact hs.1 _ (List.getElem_mem hklen2)
        simpa [nth] using le_of_lt (lt_of_le_of_lt hvx hxk)

theorem ss_nth {xs : List ℚ} (hs : xs.Sorted (· < ·)) {k : ℕ} (hk : k < xs.length) :
    searchsorted xs (nth xs k) = k := by
  refine le_antisymm ?_ ?_
  · by_contra hlt
    push_neg at hlt
    exact absurd (nth_lt_of_lt_ss hs hlt) (lt_irrefl _)
  · by_contra hlt
    push_neg at hlt
    have := le_nth_of_ss_le hs (le_refl (searchsorted xs (nth xs k))) (lt_trans hlt hk)
    exact absurd (sorted_nth_lt hs hlt hk) (not_lt.mpr this)

theorem ss_mono (xs : List ℚ) {a b : ℚ} (hab : a ≤ b) :
    searchsorted xs a ≤ searchsorted xs b := by
  refine List.countP_mono_left ?_
  intro y _ hy
  simp only [decide_eq_true_eq] at hy ⊢
  exact lt_of_lt_of_le hy hab

theorem ss_eq_zero {xs : List ℚ} (hs : xs.Sorted (· < ·)) {v : ℚ}
    (h : v ≤ nth xs 0) : xs ≠ [] → searchsorted xs v = 0 := by
  intro hne
  match xs, hne with
  | x :: t, _ =>
    rw [List.sorted_cons] at hs
    rw [searchsorted, List.countP_eq_zero]
    intro y hy
    simp only [decide_eq_true_eq, not_lt]
    rcases List.mem_cons.mp hy with rfl | hyt
    · simpa [nth] using h
    · have : x < y := hs.1 y hyt
      have hvx : v ≤ x := by simpa [nth] using h
      exact le_of_lt (lt_of_le_of_lt hvx this)

theorem ss_eq_length {xs : List ℚ} (hs : xs.Sorted (· < ·)) {v : ℚ}
    (h : nth xs (xs.length - 1) < v) : searchsorted xs v = xs.length := by
  rw [searchsorted, List.countP_eq_length]
  intro y hy
  obtain ⟨k, hk, rfl⟩ := List.getElem_of_mem hy
  have hk1 : k < xs.length := hk
  have : xs[k] ≤ nth xs (xs.length - 1) := by
    rw [← nth_eq_getElem xs k hk1]
    exact sorted_nth_le hs (by omega) (by omega)
  simp only [decide_eq_true_eq]
  exact lt_of_le_of_lt this h

theorem segIndex_nth {xs : List ℚ} (hs : xs.Sorted (· < ·)) (hn : 2 ≤ xs.length)
    {k : ℕ} (hk : k < xs.length) : segIndex xs (nth xs k) = k - 1 := by
  rw [segIndex, ss_nth hs hk]
  simp only [np_clip]
  omega

theorem segIndex_below {xs : List ℚ} (hs : xs.Sorted (· < ·)) (hn : 2 ≤ xs.length)
    {v : ℚ} (hv : v < nth xs 0) : segIndex xs v = 0 := by
  have h0 : searchsorted xs v = 0 :=
    ss_eq_zero hs (le_of_lt hv) (by intro h; rw [h] at hn; simp at hn)
  rw [segIndex, h0]
  simp only [np_clip]
  omega

theorem segIndex_above {xs : List ℚ} (hs : xs.Sorted (· < ·)) (hn : 2 ≤ xs.length)
    {v : ℚ} (hv : nth xs (xs.length - 1) < v) : segIndex xs v = xs.length - 2 := by
  rw [segIndex, ss_eq_length hs hv]
  simp only [np_clip]
  omega

theorem interpolate_eq_segEval (s : Spline) (x : ℚ) :
    interpolate s x = segEval (s.coeffs.getD (segIndex s.xp x) default) x := rfl

theorem polyDeriv_cubic (a b c d : ℚ) : polyDeriv [a, b, c, d] = [b, 2 * c, 3 * d] := by
  simp [polyDeriv, List.range_succ, nth]
  norm_num

theorem polyDeriv_quadratic (b c2 d3 : ℚ) : polyDeriv [b, c2, d3] = [c2, 2 * d3] := by
  simp [polyDeriv, List.range_succ, nth]
  norm_num

theorem evalPoly_cubic (a b c d t : ℚ) :
    evalPoly [a, b, c, d] t = a + b * t + c * t ^ 2 + d * t ^ 3 := by
  simp [evalPoly]
  ring

theorem evalPoly_quadratic (p q r t : ℚ) : evalPoly [p, q, r] t = p + q * t + r * t ^ 2 := by
  simp [evalPoly]
  ring

/-- Differentiating one piecewise branch once gives the closed form
`S' = b + 2c·dx + 3d·dx²` from the `derivative` docstring. -/
theorem polyDeriv_one_eval (c : SegCoeff) (x : ℚ) :
    evalPoly (polyDeriv^[1] [c.a, c.b, c.c, c.d]) (x - c.xi) = segDeriv1 c x := by
  rw [Function.iterate_one, polyDeriv_cubic, evalPoly_quadratic, segDeriv1]

/-- Differentiating one piecewise branch twice gives the closed form
`S'' = 2c + 6d·dx` from the `derivative` docstring. -/
theorem polyDeriv_two_eval (c : SegCoeff) (x : ℚ) :
    evalPoly (polyDeriv^[2] [c.a, c.b, c.c, c.d]) (x - c.xi) = segDeriv2 c x := by
  have h2 : polyDeriv^[2] [c.a, c.b, c.c, c.d] = [2 * c.c, 2 * (3 * c.d)] := by
    rw [show (2 : ℕ) = 1 + 1 from rfl, Function.iterate_add_apply,
      Function.iterate_one, polyDeriv_cubic, polyDeriv_quadratic]
  rw [h2, segDeriv2]
  simp [evalPoly]
  ring

/-- At the left endpoint `x_0` of a (strictly sorted) node list only the
first piecewise branch is active, so `derivative` evaluates segment `0`. -/
theorem derivAt_left_endpoint (xs ys m : List ℚ) (hs : xs.Sorted (· < ·))
    (hn : 2 ≤ xs.length) (order : ℕ) :
    derivAt (mkSpline xs ys m) (nth xs 0) order =
      evalPoly (polyDeriv^[order]
          [((buildCoeffs xs ys m).getD 0 default).a,
           ((buildCoeffs xs ys m).getD 0 default).b,
           ((buildCoeffs xs ys m).getD 0 default).c,
           ((buildCoeffs xs ys m).getD 0 default).d])
        (nth xs 0 - nth xs 0) := by
  rw [derivAt]
  show (∑ i ∈ Finset.range (xs.length - 1), _) = _
  rw [Finset.sum_eq_single 0]
  · have hc : nth xs 0 ≤ nth xs 0 ∧ nth xs 0 ≤ nth xs (0 + 1) :=
      ⟨le_refl _, le_of_lt (sorted_nth_lt hs (by omega) (by omega))⟩
    simp [mkSpline, hc]
  · intro i hi hne
    have h1 : 0 < i := Nat.pos_of_ne_zero hne
    have hilt : i < xs.length - 1 := Finset.mem_range.mp hi
    have : nth xs 0 < nth xs i := sorted_nth_lt hs h1 (by omega)
    have hfail : ¬(nth xs i ≤ nth xs 0 ∧ nth xs 0 ≤ nth xs (i + 1)) := by
      intro hcc
      exact absurd (lt_of_lt_of_le this hcc.1) (lt_irrefl _)
    simp [mkSpline, hfail]
  · intro h0
    exact absurd (Finset.mem_range.mpr (by omega)) h0

/-- At the right endpoint `x_{n-1}` only the last piecewise branch is
active, so `derivative` evaluates segment `n-2`. -/
theorem derivAt_right_endpoint (xs ys m : List ℚ) (hs : xs.Sorted (· < ·))
    (hn : 2 ≤ xs.length) (order : ℕ) :
    derivAt (mkSpline xs ys m) (nth xs (xs.length - 1)) order =
      evalPoly (polyDeriv^[order]
          [((buildCoeffs xs ys m).getD (xs.length - 2) default).a,
           ((buildCoeffs xs ys m).getD (xs.length - 2) default).b,
           ((buildCoeffs xs ys m).getD (xs.length - 2) default).c,
           ((buildCoeffs xs ys m).getD (xs.length - 2) default).d])
        (nth xs (xs.length - 1) - nth xs (xs.length - 2)) := by
  rw [derivAt]
  show (∑ i ∈ Finset.range (xs.length - 1), _) = _
  rw [Finset.sum_eq_single (xs.length - 2)]
  · have he : xs.length - 2 + 1 = xs.length - 1 := by omega
    rw [he]
    have hc1 : nth xs (xs.length - 2) ≤ nth xs (xs.length - 1) :=
      le_of_lt (sorted_nth_lt hs (by omega) (by omega))
    simp [mkSpline, hc1]
  · intro i hi hne
    have hilt : i < xs.length - 1 := Finset.mem_range.mp hi
    have h1 : i + 1 < xs.length - 1 := by omega
    have : nth xs (i + 1) < nth xs (xs.length - 1) := sorted_nth_lt hs h1 (by omega)
    have hfail : ¬(nth xs i ≤ nth xs (xs.length - 1)
        ∧ nth xs (xs.length - 1) ≤ nth xs (i + 1)) := by
      intro hcc
      exact absurd (lt_of_le_of_lt hcc.2 this) (lt_irrefl _)
    simp [mkSpline, hfail]
  · intro h0
    exact absurd (Finset.mem_range.mpr (by omega)) h0

/-- Strictly outside the node range every piecewise condition is false,
so the differentiated expression substitutes to the default branch `0`. -/
theorem derivAt_outside (xs ys m : List ℚ) (hs : xs.Sorted (· < ·)) (x : ℚ)
    (hx : x < nth xs 0 ∨ nth xs (xs.length - 1) < x) (order : ℕ) :
    derivAt (mkSpline xs ys m) x order = 0 := by
  rw [derivAt]
  refine Finset.sum_eq_zero ?_
  intro i hi
  have hilt : i < xs.length - 1 := Finset.mem_range.mp hi
  have hfail : ¬(nth (mkSpline xs ys m).xp i ≤ x ∧ x ≤ nth (mkSpline xs ys m).xp (i + 1)) := by
    rcases hx with hlo | hhi
    · intro hcc
      have : nth xs 0 ≤ nth xs i := sorted_nth_le hs (Nat.zero_le i) (by omega)
      have hcontra : nth xs 0 ≤ x := le_trans this hcc.1
      exact absurd (lt_of_le_of_lt hcontra hlo) (lt_irrefl _)
    · intro hcc
      have : nth xs (i + 1) ≤ nth xs (xs.length - 1) := sorted_nth_le hs (by omega) (by omega)
      have hcontra : x ≤ nth xs (xs.length - 1) := le_trans hcc.2 this
      exact absurd (lt_of_lt_of_le hhi hcontra) (lt_irrefl _)
  simp [hfail]

theorem buildA_clamped_row0 (xs : List ℚ) (j : ℕ) :
    buildA .clamped xs 0 j = if j = 0 then 1 else 0 := by
  simp [buildA]

theorem buildA_clamped_rowLast {xs : List ℚ} (hn : 2 ≤ xs.length) (j : ℕ) :
    buildA .clamped xs (xs.length - 1) j = if j = xs.length - 1 then 1 else 0 := by
  have h1 : xs.length - 1 ≠ 0 := by omega
  simp [buildA, h1]

theorem buildRhs_clamped_row0 (xs ys : List ℚ) (dy ddy : ℚ × ℚ) :
    buildRhs .clamped xs ys dy ddy 0 = dy.1 := by
  simp [buildRhs]

theorem buildRhs_clamped_rowLast {xs : List ℚ} (ys : List ℚ) (dy ddy : ℚ × ℚ)
    (hn : 2 ≤ xs.length) :
    buildRhs .clamped xs ys dy ddy (xs.length - 1) = dy.2 := by
  have h1 : xs.length - 1 ≠ 0 := by omega
  simp [buildRhs, h1]

theorem integrate_eq_loop (s : Spline) {a b : ℚ} (hab : a ≤ b) :
    integrate s a b =
      integLoop s b (segIndex s.xp a) (segIndex s.xp b + 1 - segIndex s.xp a) a := by
  rw [integrate, if_neg (not_lt.mpr hab)]

/-- The `integrate` loop in closed form: the threaded `x_left` entering
iteration `k` is the initial bound for `k = i` and `min(x_k, b)` for later
iterations. -/
theorem integLoop_closed (s : Spline) (b : ℚ) (cnt : ℕ) :
    ∀ (i : ℕ) (xleft : ℚ),
    integLoop s b i cnt xleft =
      ∑ k ∈ Finset.Ico i (i + cnt),
        (polyintC (s.coeffs.getD k default)
            (min (nth s.xp (k + 1)) b - (s.coeffs.getD k default).xi)
          - polyintC (s.coeffs.getD k default)
            (max (s.coeffs.getD k default).xi
               (if k = i then xleft else min (nth s.xp k) b)
             - (s.coeffs.getD k default).xi)) := by
  induction cnt with
  | zero => intro i xleft; simp [integLoop]
  | succ cnt ih =>
    intro i xleft
    rw [integLoop, ih (i + 1) (min (nth s.xp (i + 1)) b)]
    rw [Finset.sum_eq_sum_Ico_succ_bot (show i < i + (cnt + 1) by omega)]
    congr 1
    · simp
    · rw [show i + (cnt + 1) = i + 1 + cnt by omega]
      refine Finset.sum_congr rfl ?_
      intro k hk
      have hk1 : i + 1 ≤ k := (Finset.mem_Ico.mp hk).1
      by_cases h : k = i + 1
      · subst h
        simp
      · have hki : k ≠ i := by omega
        simp [h, hki]

theorem segIndex_le {xs : List ℚ} (v : ℚ) (hn : 2 ≤ xs.length) :
    segIndex xs v ≤ xs.length - 2 := by
  rw [segIndex]
  simp only [np_clip]
  omega

/-- Master lemma for `integrate`: for bounds with `a ≤ b`, `x_0 ≤ b` and
`a ≤ x_{n-1}`, the accumulated loop equals the difference of the truncated
antiderivative `antiTrunc` at the two bounds. -/
theorem integrate_eq_antiTrunc (s : Spline) (hs : s.xp.Sorted (· < ·))
    (hn : 2 ≤ s.xp.length)
    (hxi : ∀ i < s.xp.length - 1, (s.coeffs.getD i default).xi = nth s.xp i)
    {a b : ℚ} (hab : a ≤ b) (hbx : nth s.xp 0 ≤ b)
    (hax : a ≤ nth s.xp (s.xp.length - 1)) :
    integrate s a b = antiTrunc s b - antiTrunc s a := by
  have hL_le : segIndex s.xp a ≤ s.xp.length - 2 := segIndex_le a hn
  have hR_le : segIndex s.xp b ≤ s.xp.length - 2 := segIndex_le b hn
  have hssmono := ss_mono s.xp hab
  have hLR : segIndex s.xp a ≤ segIndex s.xp b := by
    rw [segIndex, segIndex]
    simp only [np_clip]
    omega
  have hssa_le := ss_le_length s.xp a
  have hssb_le := ss_le_length s.xp b
  -- the left bound never exceeds the right endpoint of its segment
  have hA3 : a ≤ nth s.xp (segIndex s.xp a + 1) := by
    rcases Nat.eq_zero_or_pos (searchsorted s.xp a) with h0 | hpos
    · have ha0 : a ≤ nth s.xp 0 := le_nth_of_ss_le hs (by omega) (by omega)
      exact le_trans ha0 (sorted_nth_le hs (by omega) (by omega))
    · by_cases hcase : searchsorted s.xp a - 1 ≤ s.xp.length - 2
      · have hLeq : segIndex s.xp a + 1 = searchsorted s.xp a := by
          rw [segIndex]
          simp only [np_clip]
          omega
        rw [hLeq]
        exact le_nth_of_ss_le hs (le_refl _) (by omega)
      · have hLeq : segIndex s.xp a + 1 = s.xp.length - 1 := by
          rw [segIndex]
          simp only [np_clip]
          omega
        rw [hLeq]
        exact hax
  -- the right bound is at or beyond the left endpoint of its segment
  have hA4 : nth s.xp (segIndex s.xp b) ≤ b := by
    rcases Nat.eq_zero_or_pos (searchsorted s.xp b) with h0 | hpos
    · have hReq : segIndex s.xp b = 0 := by
        rw [segIndex]
        simp only [np_clip]
        omega
      rw [hReq]
      exact hbx
    · have hRlt : segIndex s.xp b < searchsorted s.xp b := by
        rw [segIndex]
        simp only [np_clip]
        omega
      exact le_of_lt (nth_lt_of_lt_ss hs hRlt)
  -- segments entirely left of `a`
  have hA7 : ∀ k, k < segIndex s.xp a → nth s.xp (k + 1) ≤ a := by
    intro k hk
    rw [segIndex] at hk
    simp only [np_clip] at hk
    have : k + 1 < searchsorted s.xp a := by omega
    exact le_of_lt (nth_lt_of_lt_ss hs this)
  -- segments entirely right of `b`
  have hA8 : ∀ k, segIndex s.xp b < k → k < s.xp.length - 1 → b ≤ nth s.xp k := by
    intro k hRk hkn
    rw [segIndex] at hRk
    simp only [np_clip] at hRk
    have : searchsorted s.xp b ≤ k := by omega
    exact le_nth_of_ss_le hs this (by omega)
  rw [integrate_eq_loop s hab, integLoop_closed,
    show segIndex s.xp a + (segIndex s.xp b + 1 - segIndex s.xp a)
      = segIndex s.xp b + 1 by omega]
  have hterm : ∀ k ∈ Finset.Ico (segIndex s.xp a) (segIndex s.xp b + 1),
      polyintC (s.coeffs.getD k default)
          (min (nth s.xp (k + 1)) b - (s.coeffs.getD k default).xi)
        - polyintC (s.coeffs.getD k default)
          (max (s.coeffs.getD k default).xi
             (if k = segIndex s.xp a then a else min (nth s.xp k) b)
           - (s.coeffs.getD k default).xi)
      = polyintC (s.coeffs.getD k default) (clampSeg s.xp k b - nth s.xp k)
        - polyintC (s.coeffs.getD k default) (clampSeg s.xp k a - nth s.xp k) := by
    intro k hk
    obtain ⟨hkL, hkR⟩ := Finset.mem_Ico.mp hk
    have hkR2 : k ≤ segIndex s.xp b := by omega
    have hkn : k < s.xp.length - 1 := by omega
    rw [hxi k hkn]
    have hkb : nth s.xp k ≤ b :=
      le_trans (sorted_nth_le hs hkR2 (by omega)) hA4
    have hmax1 : clampSeg s.xp k b = min (nth s.xp (k + 1)) b := by
      rw [clampSeg, max_eq_right]
      exact le_min (sorted_nth_le hs (by omega) (by omega)) hkb
    rw [hmax1]
    congr 2
    rcases Nat.eq_or_lt_of_le hkL with heq | hlt
    · subst heq
      rw [if_pos rfl, clampSeg, min_eq_right hA3]
    · rw [if_neg (by omega)]
      have hak : a ≤ nth s.xp k :=
        le_trans hA3 (sorted_nth_le hs (by omega) (by omega))
      have h1 : max (nth s.xp k) (min (nth s.xp k) b) = nth s.xp k :=
        max_eq_left (min_le_left _ _)
      have h2 : clampSeg s.xp k a = nth s.xp k := by
        rw [clampSeg]
        have : min (nth s.xp (k + 1)) a = a :=
          min_eq_right (le_trans hak (sorted_nth_le hs (by omega) (by omega)))
        rw [this]
        exact max_eq_left hak
      rw [h1, h2]
  rw [Finset.sum_congr rfl hterm]
  have hzero_left : ∀ k ∈ Finset.Ico 0 (segIndex s.xp a),
      polyintC (s.coeffs.getD k default) (clampSeg s.xp k b - nth s.xp k)
        - polyintC (s.coeffs.getD k default) (clampSeg s.xp k a - nth s.xp k) = 0 := by
    intro k hk
    have hkL : k < segIndex s.xp a := (Finset.mem_Ico.mp hk).2
    have hka : nth s.xp (k + 1) ≤ a := hA7 k hkL
    have hkk1 : nth s.xp k ≤ nth s.xp (k + 1) :=
      sorted_nth_le hs (by omega) (by omega)
    have hca : clampSeg s.xp k a = nth s.xp (k + 1) := by
      rw [clampSeg, min_eq_left hka, max_eq_right hkk1]
    have hcb : clampSeg s.xp k b = nth s.xp (k + 1) := by
      rw [clampSeg, min_eq_left (le_trans hka hab), max_eq_right hkk1]
    rw [hca, hcb, sub_self]
  have hzero_right : ∀ k ∈ Finset.Ico (segIndex s.xp b + 1) (s.xp.length - 1),
      polyintC (s.coeffs.getD k default) (clampSeg s.xp k b - nth s.xp k)
        - polyintC (s.coeffs.getD k default) (clampSeg s.xp k a - nth s.xp k) = 0 := by
    intro k hk
    obtain ⟨hk1, hk2⟩ := Finset.mem_Ico.mp hk
    have hbk : b ≤ nth s.xp k := hA8 k (by omega) hk2
    have hkk1 : nth s.xp k ≤ nth s.xp (k + 1) :=
      sorted_nth_le hs (by omega) (by omega)
    have hcb : clampSeg s.xp k b = nth s.xp k := by
      rw [clampSeg, min_eq_right (le_trans hbk hkk1), max_eq_left hbk]
    have hca : clampSeg s.xp k a = nth s.xp k := by
      rw [clampSeg, min_eq_right (le_trans (le_trans hab hbk) hkk1),
        max_eq_left (le_trans hab hbk)]
    rw [hca, hcb, sub_self]
  have hsplit : ∑ k ∈ Finset.range (s.xp.length - 1),
      (polyintC (s.coeffs.getD k default) (clampSeg s.xp k b - nth s.xp k)
        - polyintC (s.coeffs.getD k default) (clampSeg s.xp k a - nth s.xp k))
      = ∑ k ∈ Finset.Ico (segIndex s.xp a) (segIndex s.xp b + 1),
        (polyintC (s.coeffs.getD k default) (clampSeg s.xp k b - nth s.xp k)
          - polyintC (s.coeffs.getD k default) (clampSeg s.xp k a - nth s.xp k)) := by
    rw [Finset.range_eq_Ico,
      ← Finset.sum_Ico_consecutive _ (Nat.zero_le (segIndex s.xp a))
        (show segIndex s.xp a ≤ s.xp.length - 1 by omega),
      ← Finset.sum_Ico_consecutive _
        (show segIndex s.xp a ≤ segIndex s.xp b + 1 by omega)
        (show segIndex s.xp b + 1 ≤ s.xp.length - 1 by omega),
      Finset.sum_eq_zero hzero_left, Finset.sum_eq_zero hzero_right]
    ring
  rw [← hsplit, antiTrunc, antiTrunc, ← Finset.sum_sub_distrib]

/-- Clipping the upper bound to `x_{n-1}` does not change the truncated
antiderivative. -/
theorem antiTrunc_min (s : Spline) (hs : s.xp.Sorted (· < ·))
    (hn : 2 ≤ s.xp.length) (b : ℚ) :
    antiTrunc s (min b (nth s.xp (s.xp.length - 1))) = antiTrunc s b := by
  rw [antiTrunc, antiTrunc]
  refine Finset.sum_congr rfl ?_
  intro k hk
  have hkn : k < s.xp.length - 1 := Finset.mem_range.mp hk
  have h1 : nth s.xp (k + 1) ≤ nth s.xp (s.xp.length - 1) :=
    sorted_nth_le hs (by omega) (by omega)
  rw [clampSeg, clampSeg, min_comm b, ← min_assoc, min_eq_left h1]

/-- Clipping the lower bound to `x_0` does not change the truncated
antiderivative. -/
theorem antiTrunc_max (s : Spline) (hs : s.xp.Sorted (· < ·))
    (hn : 2 ≤ s.xp.length) (a : ℚ) :
    antiTrunc s (max a (nth s.xp 0)) = antiTrunc s a := by
  rw [antiTrunc, antiTrunc]
  refine Finset.sum_congr rfl ?_
  intro k hk
  have hkn : k < s.xp.length - 1 := Finset.mem_range.mp hk
  have h0k : nth s.xp 0 ≤ nth s.xp k := sorted_nth_le hs (by omega) (by omega)
  have hkk1 : nth s.xp k ≤ nth s.xp (k + 1) := sorted_nth_le hs (by omega) (by omega)
  rcases le_total a (nth s.xp 0) with h | h
  · rw [max_eq_right h, clampSeg, clampSeg,
      min_eq_right (le_trans h0k hkk1), max_eq_left h0k,
      max_eq_left (le_trans (min_le_right _ _) (le_trans h h0k))]
  · rw [max_eq_left h]

/-- A row that is a standard basis vector picks one tangent out of the sum. -/
theorem sum_basis_row (n j0 : ℕ) (hj : j0 < n) (f : ℕ → ℚ) :
    ∑ j ∈ Finset.range n, (if j = j0 then (1 : ℚ) else 0) * f j = f j0 := by
  have h1 : ∀ j ∈ Finset.range n,
      (if j = j0 then (1 : ℚ) else 0) * f j = if j = j0 then f j else 0 := by
    intro j _
    by_cases h : j = j0 <;> simp [h]
  rw [Finset.sum_congr rfl h1, Finset.sum_ite_eq' (Finset.range n) j0 f]
  simp [Finset.mem_range.mpr hj]

/-- C2: counterexample.  The claim says construction fails eagerly with a
typed `InvalidInput` error whenever `x_points` is not strictly increasing;
in the code `__init__` performs no validation at all, and on the strictly
decreasing abscissas `[1, 0]` the clamped build runs to completion and
returns a spline — no error of any kind is raised. -/
theorem buildAcceptsDecreasingX :
    hsplineBuild [1, 0] [0, 0] .clamped (some [1, 1]) none =
      .ok ⟨[1, 0], [⟨0, 1, 3, 2, 1⟩]⟩ := by
  with_unfolding_all rfl

/-- C2 (amended): construction performs no input validation.  A
non-monotonic `x_points` builds successfully, a single point builds
successfully under `clamped`, mismatched lengths (`y_points` shorter) and
`not-a-knot` with only two points surface as untyped `IndexError`s during
assembly, and the only typed construction-time errors are the `ValueError`
for missing boundary data and `LinAlgError` for a singular system. -/
theorem buildNoInputValidation :
    buildOk (hsplineBuild [1, 0] [0, 0] .clamped (some [1, 1]) none) = true
    ∧ hsplineBuild [0] [0] .clamped (some [1, 1]) none = .ok ⟨[0], []⟩
    ∧ hsplineBuild [0, 1, 2] [0, 1] .clamped (some [1, 1]) none = .error .indexError
    ∧ hsplineBuild [0, 1] [0, 1] .notAKnot none none = .error .indexError
    ∧ hsplineBuild [0, 1] [0, 0] .clamped none none = .error .valueError := by
  refine ⟨?_, ?_, ?_, ?_, ?_⟩ <;> with_unfolding_all rfl

/-- C3: the `second` boundary condition does not reproduce the supplied
endpoint second derivatives.  On `x = [0, 1]`, `y = [0, 0]`,
`ddy_nodes = (6, 6)` the assembled system is `[[2,1],[1,2]]·m = (-6,-6)`,
the exact solve gives `m = (-2,-2)`, and the spline's second derivative at
`x_0` is `12`, not the supplied `6`: the assembled right-hand side
`6(y_1-y_0)/h² - h·ddy` does not encode `S''(x_0) = ddy[0]`. -/
theorem secondBcEndpointMismatch :
    Except.map (fun s => derivAt s 0 2)
        (hsplineBuild [0, 1] [0, 0] .second none (some [6, 6])) = .ok 12
    ∧ (12 : ℚ) ≠ 6 := by
  exact ⟨by with_unfolding_all rfl, by decide⟩

/-- C4: `derivative` never validates `order`, contrary to its own
docstring (`Raises ValueError: if the derivative order is not in [1,2,3]`)
and the spec.  On a built spline, `order = 0` returns the spline value
itself and `order = 4` returns `0`; no error path exists in the code. -/
theorem derivativeNoOrderCheck :
    Except.map (fun s => (derivAt s (1/2) 0, derivAt s (1/2) 4))
        (hsplineBuild [0, 1] [0, 1] .clamped (some [1, 1]) none) =
      .ok (1/2, 0) := by
  with_unfolding_all rfl

/-- C1: for `bc_type='periodic'` and any (valid or not) node set with
`n ≥ 2`, rows `0` and `n-1` of the assembled matrix coincide (both encode
`m_0 - m_{n-1} = 0`), both right-hand-side entries are `0`, and the matrix
is singular (`det = 0`) regardless of the ordinates — including inputs
with `y_0 = y_{n-1}` — so `np.linalg.solve` raises `LinAlgError` and the
periodic construction never succeeds. -/
theorem periodicAlwaysSingular (xs ys : List ℚ) (dy ddy : ℚ × ℚ)
    (hn : 2 ≤ xs.length) :
    (∀ j, buildA .periodic xs 0 j = buildA .periodic xs (xs.length - 1) j)
    ∧ buildRhs .periodic xs ys dy ddy 0 = 0
    ∧ buildRhs .periodic xs ys dy ddy (xs.length - 1) = 0
    ∧ (Matrix.of fun i j : Fin xs.length => buildA .periodic xs i j).det = 0 := by
  have h1 : xs.length - 1 ≠ 0 := by omega
  have hrow : ∀ j, buildA .periodic xs 0 j = buildA .periodic xs (xs.length - 1) j := by
    intro j
    simp [buildA, h1]
  refine ⟨hrow, by simp [buildRhs], by simp [buildRhs, h1], ?_⟩
  refine Matrix.det_zero_of_row_eq (i := ⟨0, by omega⟩) (j := ⟨xs.length - 1, by omega⟩)
    ?_ ?_
  · intro hc
    rw [Fin.mk.injEq] at hc
    omega
  · funext k
    exact hrow k

/-- C1 witness: the concrete periodic input `x = [0,1]`, `y = [1,1]`
(which satisfies `y_0 = y_{n-1}`). -/
theorem periodicAlwaysSingularWitness :
    (∀ j, buildA .periodic [0, 1] 0 j = buildA .periodic [0, 1] 1 j)
    ∧ buildRhs .periodic [0, 1] [1, 1] (0, 0) (0, 0) 0 = 0
    ∧ buildRhs .periodic [0, 1] [1, 1] (0, 0) (0, 0) 1 = 0
    ∧ (Matrix.of fun i j : Fin ([0, 1] : List ℚ).length =>
        buildA .periodic [0, 1] i j).det = 0 :=
  periodicAlwaysSingular [0, 1] [1, 1] (0, 0) (0, 0) (by decide)

/-- C5: every built spline interpolates its nodes exactly (in exact
arithmetic), for any tangent vector — hence for every boundary-condition
variant — both through `interpolate` and segmentwise:
`S_i(x_i) = y_i` and `S_i(x_{i+1}) = y_{i+1}`. -/
theorem splineInterpolatesNodes (xs ys m : List ℚ) (hs : xs.Sorted (· < ·))
    (hn : 2 ≤ xs.length) :
    (∀ k < xs.length, interpolate (mkSpline xs ys m) (nth xs k) = nth ys k)
    ∧ ∀ i < xs.length - 1,
        segEval ((buildCoeffs xs ys m).getD i default) (nth xs i) = nth ys i
        ∧ segEval ((buildCoeffs xs ys m).getD i default) (nth xs (i + 1)) = nth ys (i + 1) := by
  constructor
  · intro k hk
    rw [interpolate_eq_segEval]
    have hxp : (mkSpline xs ys m).xp = xs := rfl
    have hcf : (mkSpline xs ys m).coeffs = buildCoeffs xs ys m := rfl
    rw [hxp, hcf, segIndex_nth hs hn hk]
    rcases Nat.eq_zero_or_pos k with rfl | hpos
    · exact (seg_endpoint_identities ys m hs (by omega)).1
    · have hk1 : k - 1 < xs.length - 1 := by omega
      have hse := (seg_endpoint_identities ys m hs hk1).2.1
      rwa [show k - 1 + 1 = k by omega] at hse
  · intro i hi
    exact ⟨(seg_endpoint_identities ys m hs hi).1,
           (seg_endpoint_identities ys m hs hi).2.1⟩

/-- C5 witness: the nodes `x = [0,1,2]`, `y = [0,1,0]` with the zero
tangent vector. -/
theorem splineInterpolatesNodesWitness :
    (∀ k < ([0, 1, 2] : List ℚ).length,
      interpolate (mkSpline [0, 1, 2] [0, 1, 0] [0, 0, 0]) (nth [0, 1, 2] k) = nth [0, 1, 0] k)
    ∧ ∀ i < ([0, 1, 2] : List ℚ).length - 1,
        segEval ((buildCoeffs [0, 1, 2] [0, 1, 0] [0, 0, 0]).getD i default)
            (nth [0, 1, 2] i) = nth [0, 1, 0] i
        ∧ segEval ((buildCoeffs [0, 1, 2] [0, 1, 0] [0, 0, 0]).getD i default)
            (nth [0, 1, 2] (i + 1)) = nth [0, 1, 0] (i + 1) :=
  splineInterpolatesNodes [0, 1, 2] [0, 1, 0] [0, 0, 0] (by decide) (by decide)

/-- C6: at every interior node the first derivatives of the left and of
the right adjoining segment cubics both equal the shared tangent `m_i`
(C¹ continuity), for any tangent vector. -/
theorem splineC1Continuity (xs ys m : List ℚ) (hs : xs.Sorted (· < ·)) :
    ∀ i, 0 < i → i < xs.length - 1 →
      segDeriv1 ((buildCoeffs xs ys m).getD (i - 1) default) (nth xs i) = nth m i
      ∧ segDeriv1 ((buildCoeffs xs ys m).getD i default) (nth xs i) = nth m i := by
  intro i h0 hi
  constructor
  · have hi1 : i - 1 < xs.length - 1 := by omega
    have hsd := (seg_endpoint_identities ys m hs hi1).2.2.2
    rwa [show i - 1 + 1 = i by omega] at hsd
  · exact (seg_endpoint_identities ys m hs hi).2.2.1

/-- C6 witness: the interior node `x_1` of `x = [0,1,2]`. -/
theorem splineC1ContinuityWitness :
    segDeriv1 ((buildCoeffs [0, 1, 2] [0, 1, 0] [1, 0, -1]).getD 0 default)
        (nth [0, 1, 2] 1) = nth [1, 0, -1] 1
    ∧ segDeriv1 ((buildCoeffs [0, 1, 2] [0, 1, 0] [1, 0, -1]).getD 1 default)
        (nth [0, 1, 2] 1) = nth [1, 0, -1] 1 :=
  splineC1Continuity [0, 1, 2] [0, 1, 0] [1, 0, -1] (by decide) 1 (by decide) (by decide)

/-- C7: if the tangents solve the assembled clamped system then the
spline's first derivative at the two endpoints equals the supplied
endpoint derivatives exactly. -/
theorem clampedEndpointDerivatives (xs ys m : List ℚ) (dy ddy : ℚ × ℚ)
    (hs : xs.Sorted (· < ·)) (hn : 2 ≤ xs.length)
    (hsys : ∀ i < xs.length,
      ∑ j ∈ Finset.range xs.length, buildA .clamped xs i j * nth m j
        = buildRhs .clamped xs ys dy ddy i) :
    derivAt (mkSpline xs ys m) (nth xs 0) 1 = dy.1
    ∧ derivAt (mkSpline xs ys m) (nth xs (xs.length - 1)) 1 = dy.2 := by
  have hm0 : nth m 0 = dy.1 := by
    have h := hsys 0 (by omega)
    simp only [buildA_clamped_row0] at h
    rw [sum_basis_row xs.length 0 (by omega) (nth m), buildRhs_clamped_row0] at h
    exact h
  have hmN : nth m (xs.length - 1) = dy.2 := by
    have h := hsys (xs.length - 1) (by omega)
    simp only [buildA_clamped_rowLast hn] at h
    rw [sum_basis_row xs.length (xs.length - 1) (by omega) (nth m),
      buildRhs_clamped_rowLast ys dy ddy hn] at h
    exact h
  constructor
  · rw [derivAt_left_endpoint xs ys m hs hn 1]
    have hxi : ((buildCoeffs xs ys m).getD 0 default).xi = nth xs 0 := by
      rw [buildCoeffs_getD xs ys m (show 0 < xs.length - 1 by omega)]
    nth_rewrite 2 [← hxi]
    rw [polyDeriv_one_eval]
    rw [(seg_endpoint_identities ys m hs (show 0 < xs.length - 1 by omega)).2.2.1]
    exact hm0
  · rw [derivAt_right_endpoint xs ys m hs hn 1]
    have h2 : xs.length - 2 < xs.length - 1 := by omega
    have hxi : ((buildCoeffs xs ys m).getD (xs.length - 2) default).xi = nth xs (xs.length - 2) := by
      rw [buildCoeffs_getD xs ys m h2]
    rw [← hxi]
    rw [polyDeriv_one_eval]
    have hsd := (seg_endpoint_identities ys m hs h2).2.2.2
    rw [show xs.length - 2 + 1 = xs.length - 1 by omega] at hsd
    rw [hsd]
    exact hmN

/-- C7 witness: `x = [0,1]`, `y = [0,0]`, `dy = (1,1)` with the exact
solution `m = [1,1]` of the clamped system. -/
theorem clampedEndpointDerivativesWitness :
    derivAt (mkSpline [0, 1] [0, 0] [1, 1]) (nth [0, 1] 0) 1 = 1
    ∧ derivAt (mkSpline [0, 1] [0, 0] [1, 1]) (nth [0, 1] (([0, 1] : List ℚ).length - 1)) 1 = 1 :=
  clampedEndpointDerivatives [0, 1] [0, 0] [1, 1] (1, 1) (0, 0) (by decide) (by decide)
    (by
      intro i hi
      have hi2 : i = 0 ∨ i = 1 := by
        simp only [List.length_cons, List.length_nil] at hi
        omega
      rcases hi2 with rfl | rfl <;> with_unfolding_all rfl)

/-- C9: strictly outside the node range every derivative of order 1, 2 or
3 evaluates to `0` (the piecewise default branch), while `evaluate`
extrapolates with the nearest boundary segment's cubic. -/
theorem derivativeZeroOutsideDomain (xs ys m : List ℚ) (hs : xs.Sorted (· < ·))
    (hn : 2 ≤ xs.length) (x : ℚ) (order : ℕ)
    (_hord : order = 1 ∨ order = 2 ∨ order = 3)
    (hx : x < nth xs 0 ∨ nth xs (xs.length - 1) < x) :
    derivAt (mkSpline xs ys m) x order = 0
    ∧ (x < nth xs 0 → interpolate (mkSpline xs ys m) x =
        segEval ((buildCoeffs xs ys m).getD 0 default) x)
    ∧ (nth xs (xs.length - 1) < x → interpolate (mkSpline xs ys m) x =
        segEval ((buildCoeffs xs ys m).getD (xs.length - 2) default) x) := by
  refine ⟨derivAt_outside xs ys m hs x hx order, ?_, ?_⟩
  · intro h
    rw [interpolate_eq_segEval]
    have hxp : (mkSpline xs ys m).xp = xs := rfl
    rw [hxp, segIndex_below hs hn h]
    rfl
  · intro h
    rw [interpolate_eq_segEval]
    have hxp : (mkSpline xs ys m).xp = xs := rfl
    rw [hxp, segIndex_above hs hn h]
    rfl

/-- C8: the definite integral is additive over in-range splitting points:
`integrate(a, c) + integrate(c, b) = integrate(a, b)` whenever
`x_0 ≤ a ≤ c ≤ b ≤ x_{n-1}`, exactly, for any coefficient table built
from the nodes and a tangent vector. -/
theorem integralAdditivity (xs ys m : List ℚ) (hs : xs.Sorted (· < ·))
    (hn : 2 ≤ xs.length) (a c b : ℚ)
    (h0a : nth xs 0 ≤ a) (hac : a ≤ c) (hcb : c ≤ b)
    (hbN : b ≤ nth xs (xs.length - 1)) :
    integrate (mkSpline xs ys m) a c + integrate (mkSpline xs ys m) c b
      = integrate (mkSpline xs ys m) a b := by
  have hxi : ∀ i < (mkSpline xs ys m).xp.length - 1,
      ((mkSpline xs ys m).coeffs.getD i default).xi = nth (mkSpline xs ys m).xp i := by
    intro i hi
    show ((buildCoeffs xs ys m).getD i default).xi = nth xs i
    rw [buildCoeffs_getD xs ys m hi]
  have hab : a ≤ b := le_trans hac hcb
  rw [integrate_eq_antiTrunc _ hs hn hxi hac (le_trans h0a hac) (le_trans hab hbN),
    integrate_eq_antiTrunc _ hs hn hxi hcb (le_trans h0a (le_trans hac hcb))
      (le_trans hcb hbN),
    integrate_eq_antiTrunc _ hs hn hxi hab (le_trans h0a hab) (le_trans hab hbN)]
  ring

/-- C8 witness: the nodes `x = [0,2]` with `a = 0`, `c = 1`, `b = 2`. -/
theorem integralAdditivityWitness :
    integrate (mkSpline [0, 2] [0, 2] [1, 1]) 0 1
      + integrate (mkSpline [0, 2] [0, 2] [1, 1]) 1 2
      = integrate (mkSpline [0, 2] [0, 2] [1, 1]) 0 2 :=
  integralAdditivity [0, 2] [0, 2] [1, 1] (by decide) (by decide) 0 1 2
    (by decide) (by decide) (by decide) (by decide)

/-- C10: any part of the integration interval outside the node range
contributes zero: for `a ≤ b` with `a ≤ x_{n-1}` and `b ≥ x_0`,
`integrate(a, b) = integrate(max(a, x_0), min(b, x_{n-1}))`. -/
theorem integrateTruncatesToDomain (xs ys m : List ℚ) (hs : xs.Sorted (· < ·))
    (hn : 2 ≤ xs.length) (a b : ℚ)
    (hab : a ≤ b) (haN : a ≤ nth xs (xs.length - 1)) (h0b : nth xs 0 ≤ b) :
    integrate (mkSpline xs ys m) a b
      = integrate (mkSpline xs ys m) (max a (nth xs 0))
          (min b (nth xs (xs.length - 1))) := by
  have hxi : ∀ i < (mkSpline xs ys m).xp.length - 1,
      ((mkSpline xs ys m).coeffs.getD i default).xi = nth (mkSpline xs ys m).xp i := by
    intro i hi
    show ((buildCoeffs xs ys m).getD i default).xi = nth xs i
    rw [buildCoeffs_getD xs ys m hi]
  have h0N : nth xs 0 ≤ nth xs (xs.length - 1) := sorted_nth_le hs (by omega) (by omega)
  have hab2 : max a (nth xs 0) ≤ min b (nth xs (xs.length - 1)) :=
    le_min (max_le hab h0b) (max_le haN h0N)
  have hbx2 : nth xs 0 ≤ min b (nth xs (xs.length - 1)) := le_min h0b h0N
  have hax2 : max a (nth xs 0) ≤ nth xs (xs.length - 1) := max_le haN h0N
  have e1 : antiTrunc (mkSpline xs ys m) (min b (nth xs (xs.length - 1)))
      = antiTrunc (mkSpline xs ys m) b := antiTrunc_min _ hs hn b
  have e2 : antiTrunc (mkSpline xs ys m) (max a (nth xs 0))
      = antiTrunc (mkSpline xs ys m) a := antiTrunc_max _ hs hn a
  rw [integrate_eq_antiTrunc _ hs hn hxi hab h0b haN,
    integrate_eq_antiTrunc _ hs hn hxi hab2 hbx2 hax2, e1, e2]

/-- C10 witness: `x = [0,1]` with bounds `a = -1`, `b = 3` overhanging the
node range on both sides. -/
theorem integrateTruncatesToDomainWitness :
    integrate (mkSpline [0, 1] [0, 1] [1, 1]) (-1) 3
      = integrate (mkSpline [0, 1] [0, 1] [1, 1]) (max (-1) (nth [0, 1] 0))
          (min 3 (nth [0, 1] (([0, 1] : List ℚ).length - 1))) :=
  integrateTruncatesToDomain [0, 1] [0, 1] [1, 1] (by decide) (by decide) (-1) 3
    (by decide) (by decide) (by decide)

/-- C9 witness: `x = 2` to the right of the node range of `x = [0,1]`,
first derivative. -/
theorem derivativeZeroOutsideDomainWitness :
    derivAt (mkSpline [0, 1] [0, 1] [1, 1]) 2 1 = 0
    ∧ ((2 : ℚ) < nth [0, 1] 0 → interpolate (mkSpline [0, 1] [0, 1] [1, 1]) 2 =
        segEval ((buildCoeffs [0, 1] [0, 1] [1, 1]).getD 0 default) 2)
    ∧ (nth [0, 1] (([0, 1] : List ℚ).length - 1) < 2 →
        interpolate (mkSpline [0, 1] [0, 1] [1, 1]) 2 =
          segEval ((buildCoeffs [0, 1] [0, 1] [1, 1]).getD (([0, 1] : List ℚ).length - 2) default) 2) :=
  derivativeZeroOutsideDomain [0, 1] [0, 1] [1, 1] (by decide) (by decide) 2 1
    (Or.inl rfl) (Or.inr (by decide))

end CompMath
